import Mathlib

/-!
Shallow embedding of the dataset-validation and annotation pipeline
(`pipeline.py`): the `validate_dataset` checker, the `CorpusManager`
directory scanner, the `MorphologicalToken` data class with its three
derived views, the `TextProcessingPipeline._process` token filter and the
`TextProcessingPipeline.run` driver loop.  External collaborators
(`pymystem3.Mystem`, `pymorphy2.MorphAnalyzer`, `core_utils.article.Article`)
are modelled as explicit parameters or records.  Filesystem state is an
explicit value: a directory is a list of named entries with sizes.
-/

/-- Decimal digit character for `n < 10` (clamping at `'9'`), used to build
the decimal rendering of a natural number as Python's f-string `f'{index}'`
does. -/
def digitChar (n : Nat) : Char :=
  match n with
  | 0 => '0' | 1 => '1' | 2 => '2' | 3 => '3' | 4 => '4'
  | 5 => '5' | 6 => '6' | 7 => '7' | 8 => '8' | _ => '9'

/-- Decimal digits of `n`, least significant first, with structural fuel so
that the kernel can evaluate it (the fuel is irrelevant once it exceeds the
argument). -/
def natDigitsRevAux : Nat → Nat → List Char
  | 0, _ => []
  | fuel + 1, n =>
    if n < 10 then [digitChar n]
    else digitChar (n % 10) :: natDigitsRevAux fuel (n / 10)

/-- Decimal digits of `n`, least significant first. -/
def natDigitsRev (n : Nat) : List Char :=
  natDigitsRevAux (n + 1) n

/-- Decimal rendering of a natural number, modelling Python's `f'{index}'`
interpolation of an `int`. -/
def natToStr (n : Nat) : String :=
  ⟨(natDigitsRev n).reverse⟩

/-- The leading run of ASCII decimal digits of a string: the text matched by
`re.compile(r'\d+').match(s)`, or `""` when the match is `None`. -/
def leadingDigits (s : String) : String :=
  ⟨s.data.takeWhile Char.isDigit⟩

/-- Value of a digit string, modelling Python's `int(...)` on the matched
digit group. -/
def digitsToNat (s : String) : Nat :=
  s.data.foldl (fun a c => a * 10 + (c.toNat - 48)) 0

/-- `pathlib.PurePath.stem`: the file name without its last suffix.  The
suffix is the part from the last `'.'` on, and only counts as a suffix when
that dot is neither the first nor the last character of the name. -/
def pyStem (name : String) : String :=
  let cs := name.data
  match (cs.reverse).findIdx? (· = '.') with
  | none => name
  | some j => if 0 < j ∧ j < cs.length - 1 then ⟨cs.take (cs.length - 1 - j)⟩ else name

/-- `raw_text.replace('\n', '')`: removing every occurrence of the
one-character pattern `'\n'` is exactly filtering newline characters out. -/
def stripNewlines (s : String) : String :=
  ⟨s.data.filter (fun c => c ≠ '\n')⟩

/-- One character of Python's `str.lower()`, modelled on the character
ranges this corpus uses: ASCII letters and the Russian alphabet
(`А`..`Я` map by a `+0x20` offset, `Ё` maps to `ё`); other characters are
left unchanged. -/
def pyLowerChar (c : Char) : Char :=
  if 'A' ≤ c ∧ c ≤ 'Z' then Char.ofNat (c.toNat + 32)
  else if 'А' ≤ c ∧ c ≤ 'Я' then Char.ofNat (c.toNat + 32)
  else if c = 'Ё' then 'ё'
  else c

/-- Python's `str.lower()` on the modelled character ranges. -/
def pyLower (s : String) : String :=
  ⟨s.data.map pyLowerChar⟩

/-- One directory entry as seen by `path.glob('*')` together with its
`os.stat(...).st_size`. -/
structure FSEntry where
  name : String
  size : Nat
deriving DecidableEq, Repr

/-- The filesystem state `validate_dataset` inspects: whether the path
exists, whether it is a directory, and (when it is) its entries, in the
arbitrary order `glob('*')` yields them.  Python 3.11 `pathlib.Path.glob('*')`
returns hidden (dot-initial) entries as well, so no entry is filtered out. -/
structure FS where
  pathExists : Bool
  isDir : Bool
  entries : List FSEntry
deriving DecidableEq, Repr

/-- The exceptions `validate_dataset` can raise.  `fileNotFound` embeds the
built-in `FileNotFoundError` (the spec's path-not-found error),
`notADirectory` the built-in `NotADirectoryError`; the other two are the
module's own classes. -/
inductive VErr where
  | fileNotFound
  | notADirectory
  | emptyDirectory
  | inconsistentDataset
deriving DecidableEq, Repr

deriving instance DecidableEq for Except

/-- `(dataset_path / name).exists()`: the directory listing has an entry of
that exact name. -/
def hasFile (entries : List FSEntry) (n : String) : Bool :=
  entries.any (fun e => e.name == n)

/-- The integer parsed from an entry: `int(re.compile(r'\d+').match(files.stem).group())`. -/
def entryIdx (e : FSEntry) : Nat :=
  digitsToNat (leadingDigits (pyStem e.name))

/-- First pass of `validate_dataset`, the `for files in dataset_path.glob('*')`
loop: raise `InconsistentDatasetError` on a zero-size entry or an entry whose
stem does not start with a digit, otherwise collect each parsed index once
(`if index not in indices: indices.append(index)`). -/
def collectIndices : List FSEntry → List Nat → Except VErr (List Nat)
  | [], acc => .ok acc
  | e :: es, acc =>
    if e.size = 0 then .error .inconsistentDataset
    else if leadingDigits (pyStem e.name) = "" then .error .inconsistentDataset
    else
      let i := entryIdx e
      collectIndices es (if acc.contains i then acc else acc ++ [i])

/-- The pure value computed by the first pass when no entry fails its
checks: each entry's parsed index appended once, in encounter order
(`if index not in indices: indices.append(index)`). -/
def dedupInto (acc : List Nat) : List Nat → List Nat
  | [] => acc
  | i :: is => dedupInto (if acc.contains i then acc else acc ++ [i]) is

/-- Second pass of `validate_dataset`, the `for index in new_indices` loop:
with `previous_index` threaded through, raise unless each index is exactly
one more than the previous and both `{index}_raw.txt` and
`{index}_meta.json` exist. -/
def checkIndices (entries : List FSEntry) : Nat → List Nat → Except VErr Unit
  | _, [] => .ok ()
  | prev, i :: rest =>
    if i - prev ≠ 1 then .error .inconsistentDataset
    else if !(hasFile entries (natToStr i ++ "_raw.txt")) || !(hasFile entries (natToStr i ++ "_meta.json")) then .error .inconsistentDataset
    else checkIndices entries i rest

/-- `validate_dataset(path_to_validate)` over the explicit filesystem state:
path-existence and directory checks, the entry scan, the emptiness check,
`sorted(indices)`, the `new_indices[0] != 1` check, and the second loop.
(`new_indices[0]` is read through `head?`; the listing is non-empty on that
branch, so the `none` case is unreachable.) -/
def validate_dataset (fs : FS) : Except VErr Unit :=
  if fs.pathExists then
    if fs.isDir then
      match collectIndices fs.entries [] with
      | .error e => .error e
      | .ok indices =>
        if indices = [] then .error .emptyDirectory
        else
          let newIndices := List.insertionSort (· ≤ ·) indices
          if newIndices.head? ≠ some 1 then .error .inconsistentDataset
          else checkIndices fs.entries 0 newIndices
    else .error .notADirectory
  else .error .fileNotFound

/-- The set of distinct leading integers of a directory's entries (entries
whose stem starts with no digit contribute nothing). -/
def indexSet (entries : List FSEntry) : Finset Nat :=
  ((entries.filter (fun e => leadingDigits (pyStem e.name) ≠ "")).map entryIdx).toFinset

/-- `MorphologicalToken`: original word plus the fields filled in by the two
taggers (`''` until assigned, as in `__init__`). -/
structure MorphologicalToken where
  original_word : String
  normalized_form : String := ""
  tags_mystem : String := ""
  tags_pymorphy : String := ""
deriving DecidableEq, Repr

/-- `get_cleaned`: `self.original_word.lower()`. -/
def MorphologicalToken.get_cleaned (t : MorphologicalToken) : String :=
  pyLower t.original_word

/-- `get_single_tagged`: `f'{self.normalized_form}<{self.tags_mystem}>'`. -/
def MorphologicalToken.get_single_tagged (t : MorphologicalToken) : String :=
  t.normalized_form ++ "<" ++ t.tags_mystem ++ ">"

/-- `get_multiple_tagged`: `f'{self.normalized_form}<{self.tags_mystem}>({self.tags_pymorphy})'`. -/
def MorphologicalToken.get_multiple_tagged (t : MorphologicalToken) : String :=
  t.normalized_form ++ "<" ++ t.tags_mystem ++ ">(" ++ t.tags_pymorphy ++ ")"

/-- One candidate analysis in a `Mystem().analyze(...)` result item: a dict
that may or may not carry the `'lex'` and `'gr'` keys (the source checks for
both). -/
structure MystemCandidate where
  lex : Option String
  gr : Option String
deriving DecidableEq, Repr

/-- One item of `Mystem().analyze(...)`: a dict with optional `'text'` and
`'analysis'` keys (the source checks `'analysis' not in token` and
`'text' not in token`). -/
structure MystemItem where
  text : Option String
  analysis : Option (List MystemCandidate)
deriving DecidableEq, Repr

/-- The body of the `for token in analyzed_cleaned_text` loop of
`TextProcessingPipeline._process`, for one item: skip (return `none`) when
the analysis is absent or empty, when its first candidate lacks `'lex'` or
`'gr'`, when the surface text is absent or empty, or when
`morph.parse(token['text'])` is empty; otherwise build the
`MorphologicalToken`.  `parse` models `MorphAnalyzer().parse`, returning the
candidate tags best-first (`parse_word[0].tag` is taken). -/
def processItem (parse : String → List String) (t : MystemItem) : Option MorphologicalToken :=
  match t.analysis with
  | none => none
  | some [] => none
  | some (c :: _) =>
    if c.lex = none ∨ c.gr = none then none
    else
      match t.text with
      | none => none
      | some txt =>
        if txt = "" then none
        else
          match c.lex, c.gr with
          | some lex, some gr =>
            match parse txt with
            | [] => none
            | ptag :: _ =>
              some { original_word := txt, normalized_form := lex,
                     tags_mystem := gr, tags_pymorphy := ptag }
          | _, _ => none

/-- `TextProcessingPipeline._process(raw_text)`: strip newlines, run the
lemma tagger (`analyze` models `Mystem().analyze`), and keep, in order, the
tokens the loop body emits. -/
def process (analyze : String → List MystemItem) (parse : String → List String)
    (raw_text : String) : List MorphologicalToken :=
  (analyze (stripNewlines raw_text)).filterMap (processItem parse)

/-- The exception `CorpusManager._scan_dataset` can raise:
`digit.match(file.name)` is `None` for a name with no leading digit, and
`.group()` on `None` raises `AttributeError`. -/
inductive ScanErr where
  | attributeError
deriving DecidableEq, Repr

/-- `CorpusManager._scan_dataset`: for each entry name,
`article_id = digit.match(file.name).group()` — which raises
`AttributeError` when the name has no leading digit — then the (dead) skip
guard `if not article_id: continue` (a successful `\d+` group is never
empty), then `self._storage[int(article_id)] = Article(None, int(article_id))`.
The storage is modelled as the list of registered identifiers in insertion
order (a duplicate identifier overwrites the same dict key; the identifier
list is what the claims inspect). -/
def scanDataset : List String → Except ScanErr (List Nat)
  | [] => .ok []
  | name :: rest =>
    let d := leadingDigits name
    if d = "" then .error .attributeError
    else if d = "" then scanDataset rest
    else
      match scanDataset rest with
      | .error e => .error e
      | .ok ids => .ok (digitsToNat d :: ids)

/-- Modelled from the spec: `core_utils.article.Article` is not under `src/`;
per §3 an ArticleRecord is an identifier with its raw text attached by the
Source Provider (`get_raw_text`). -/
structure ArticleRec where
  id : Nat
  raw_text : String
deriving DecidableEq, Repr

/-- Modelled from the spec: `Article.save_as` is not under `src/`; per §4.4
each article persists three named output artifacts, `cleaned`,
`single_tagged` and `multiple_tagged`. -/
structure SavedViews where
  id : Nat
  cleaned : String
  single_tagged : String
  multiple_tagged : String
deriving DecidableEq, Repr

/-- `TextProcessingPipeline.run`: for each article (in registry order),
start from fresh `cleaned_tokens`, `single_tagged`, `multiple_tagged` lists,
fill them from `_process(raw_text)`, and persist the three space-joined
strings. -/
def runPipeline (analyze : String → List MystemItem) (parse : String → List String) :
    List ArticleRec → List SavedViews
  | [] => []
  | a :: rest =>
    let tokens := process analyze parse a.raw_text
    { id := a.id,
      cleaned := String.intercalate " " (tokens.map MorphologicalToken.get_cleaned),
      single_tagged := String.intercalate " " (tokens.map MorphologicalToken.get_single_tagged),
      multiple_tagged := String.intercalate " " (tokens.map MorphologicalToken.get_multiple_tagged) }
      :: runPipeline analyze parse rest

/-- A concrete lemma-tagger collaborator used to instantiate pipeline
theorems on closed inputs: every surface token analyzes to itself with a
fixed grammar tag. -/
def sampleAnalyze : String → List MystemItem :=
  fun s => [{ text := some s, analysis := some [{ lex := some s, gr := some "S" }] }]

/-- A concrete morphology-tagger collaborator for closed instantiations:
every token has one parse candidate with tag `"NOUN"`. -/
def sampleParse : String → List String :=
  fun _ => ["NOUN"]

/-- A concrete two-article registry for closed instantiations. -/
def sampleArticles : List ArticleRec :=
  [{ id := 1, raw_text := "Кот" }, { id := 2, raw_text := "Дом" }]

/-- Every character `digitChar` produces is an ASCII digit. -/
theorem digitChar_isDigit (n : Nat) : (digitChar n).isDigit = true := by
  rcases n with _|_|_|_|_|_|_|_|_|n <;> rfl

/-- Code of the digit character of `n < 10`. -/
theorem digitChar_toNat (n : Nat) (h : n < 10) : (digitChar n).toNat = 48 + n := by
  interval_cases n <;> rfl

/-- The fuel of `natDigitsRevAux` does not matter once it exceeds the
argument. -/
theorem natDigitsRevAux_congr (f1 : Nat) :
    ∀ f2 n, n < f1 → n < f2 → natDigitsRevAux f1 n = natDigitsRevAux f2 n := by
  induction f1 with
  | zero => intro f2 n h1 _; omega
  | succ f ih =>
    intro f2 n h1 h2
    cases f2 with
    | zero => omega
    | succ g =>
      by_cases h10 : n < 10
      · simp [natDigitsRevAux, h10]
      · simp only [natDigitsRevAux, if_neg h10]
        rw [ih g (n / 10) (by omega) (by omega)]

/-- The defining recurrence of `natDigitsRev`. -/
theorem natDigitsRev_eq (n : Nat) :
    natDigitsRev n =
      if n < 10 then [digitChar n] else digitChar (n % 10) :: natDigitsRev (n / 10) := by
  show natDigitsRevAux (n + 1) n = _
  by_cases h : n < 10
  · simp [natDigitsRevAux, h]
  · simp only [natDigitsRevAux, if_neg h]
    rw [natDigitsRevAux_congr n (n / 10 + 1) (n / 10) (by omega) (by omega)]
    rfl

/-- The digit list of a natural number is never empty. -/
theorem natDigitsRev_ne_nil (n : Nat) : natDigitsRev n ≠ [] := by
  rw [natDigitsRev_eq]
  split <;> simp

/-- Every character in the digit list is an ASCII digit. -/
theorem natDigitsRev_isDigit (n : Nat) : ∀ c ∈ natDigitsRev n, c.isDigit = true := by
  induction n using Nat.strong_induction_on with
  | _ n ih =>
    rw [natDigitsRev_eq]
    split
    · intro c hc
      rw [List.mem_singleton] at hc
      subst hc
      exact digitChar_isDigit n
    · intro c hc
      rcases List.mem_cons.1 hc with h | h
      · subst h; exact digitChar_isDigit (n % 10)
      · exact ih (n / 10) (Nat.div_lt_self (by omega) (by omega)) c h

/-- An ASCII digit is not a dot. -/
theorem isDigit_ne_dot {c : Char} (h : c.isDigit = true) : c ≠ '.' := by
  intro hc
  subst hc
  exact absurd h (by decide)

/-- An ASCII digit is not an underscore. -/
theorem isDigit_ne_underscore : ('_').isDigit = false := by decide

/-- Folding the digit list back recovers the number. -/
theorem natDigitsRev_val (n : Nat) :
    (natDigitsRev n).foldr (fun c acc => acc * 10 + (c.toNat - 48)) 0 = n := by
  induction n using Nat.strong_induction_on with
  | _ n ih =>
    rw [natDigitsRev_eq]
    split
    · rename_i h
      simp [digitChar_toNat n h]
    · rename_i h
      rw [List.foldr_cons, ih (n / 10) (Nat.div_lt_self (by omega) (by omega)),
        digitChar_toNat (n % 10) (Nat.mod_lt _ (by omega))]
      omega

/-- `int(str(n)) = n`: parsing the decimal rendering gives the number back. -/
theorem digitsToNat_natToStr (n : Nat) : digitsToNat (natToStr n) = n := by
  show ((natDigitsRev n).reverse).foldl (fun a c => a * 10 + (c.toNat - 48)) 0 = n
  rw [List.foldl_reverse]
  exact natDigitsRev_val n

/-- The decimal rendering of a number is a non-empty string. -/
theorem natToStr_ne_empty (n : Nat) : natToStr n ≠ "" := by
  intro h
  have : (natDigitsRev n).reverse = ([] : List Char) := congrArg String.data h
  have := natDigitsRev_ne_nil n
  simp at this ⊢
  exact this (by simpa using ‹(natDigitsRev n).reverse = []›)

/-- Every character of the decimal rendering is an ASCII digit. -/
theorem natToStr_isDigit (n : Nat) : ∀ c ∈ (natToStr n).data, c.isDigit = true := by
  intro c hc
  exact natDigitsRev_isDigit n c (List.mem_reverse.1 hc)

/-- `takeWhile` over a block that satisfies the predicate followed by an
element that does not stops exactly at the block. -/
theorem takeWhile_block {α : Type} (p : α → Bool) (l₁ : List α) (x : α) (l₂ : List α)
    (h₁ : ∀ c ∈ l₁, p c = true) (hx : p x = false) :
    (l₁ ++ x :: l₂).takeWhile p = l₁ := by
  induction l₁ with
  | nil => simp [List.takeWhile_cons, hx]
  | cons a t ih =>
    rw [List.cons_append, List.takeWhile_cons, h₁ a (by simp)]
    simp only [if_true]
    rw [ih (fun c hc => h₁ c (by simp [hc]))]

/-- `findIdx?` over a block of non-matching elements followed by a match
returns the block's length (plus the running offset). -/
theorem findIdx?_block {α : Type} (p : α → Bool) (xs : List α) (y : α) (ys : List α)
    (hxs : ∀ x ∈ xs, p x = false) (hy : p y = true) :
    ∀ i, List.findIdx? p (xs ++ y :: ys) i = some (xs.length + i) := by
  induction xs with
  | nil => intro i; simp [List.findIdx?_cons, hy]
  | cons a t ih =>
    intro i
    rw [List.cons_append, List.findIdx?_cons, hxs a (by simp)]
    simp only [Bool.false_eq_true, if_false]
    rw [ih (fun x hx => hxs x (by simp [hx])) (i + 1)]
    congr 1
    simp
    omega

/-- `pathlib` stem computation on a name of shape `base ++ "." ++ ext` with
a non-empty base, a non-empty extension and no dot inside the extension:
the stem is the base. -/
theorem pyStem_block (l₁ l₂ : List Char) (h₁ : l₁ ≠ []) (h₂ : l₂ ≠ []) (hd : '.' ∉ l₂) :
    pyStem ⟨l₁ ++ '.' :: l₂⟩ = ⟨l₁⟩ := by
  have hmem : ∀ x ∈ l₂.reverse, (fun c => decide (c = '.')) x = false := by
    intro x hx
    simp only [decide_eq_false_iff_not]
    intro h
    subst h
    exact hd (List.mem_reverse.1 hx)
  have hfind := findIdx?_block (fun c => decide (c = '.')) l₂.reverse '.' l₁.reverse hmem (by simp) 0
  have hlen2 : 0 < l₂.length := List.length_pos.2 h₂
  have hlen1 : 0 < l₁.length := List.length_pos.2 h₁
  unfold pyStem
  dsimp only
  rw [List.reverse_append, List.reverse_cons, List.append_assoc, List.singleton_append, hfind]
  dsimp only
  have hcond : 0 < l₂.reverse.length + 0 ∧
      l₂.reverse.length + 0 < (l₁ ++ '.' :: l₂).length - 1 := by
    simp [List.length_reverse, List.length_append]
    omega
  rw [if_pos hcond]
  have harg : (l₁ ++ '.' :: l₂).length - 1 - (l₂.reverse.length + 0) = l₁.length := by
    simp [List.length_reverse, List.length_append]
  rw [harg]
  exact congrArg String.mk (List.take_left l₁ ('.' :: l₂))

/-- `Path(f'{n}_raw.txt').stem = f'{n}_raw'`. -/
theorem pyStem_raw (n : Nat) : pyStem (natToStr n ++ "_raw.txt") = natToStr n ++ "_raw" := by
  have hdata : natToStr n ++ "_raw.txt" = ⟨((natToStr n).data ++ "_raw".data) ++ '.' :: "txt".data⟩ := by
    apply congrArg String.mk
    show (natToStr n).data ++ "_raw.txt".data = _
    rw [List.append_assoc]
    rfl
  rw [hdata, pyStem_block _ _ (by simp) (by simp) (by decide)]
  rfl

/-- `Path(f'{n}_meta.json').stem = f'{n}_meta'`. -/
theorem pyStem_meta (n : Nat) : pyStem (natToStr n ++ "_meta.json") = natToStr n ++ "_meta" := by
  have hdata : natToStr n ++ "_meta.json" = ⟨((natToStr n).data ++ "_meta".data) ++ '.' :: "json".data⟩ := by
    apply congrArg String.mk
    show (natToStr n).data ++ "_meta.json".data = _
    rw [List.append_assoc]
    rfl
  rw [hdata, pyStem_block _ _ (by simp) (by simp) (by decide)]
  rfl

/-- The leading-digit run of a string made of a decimal rendering followed
by a non-digit character and anything after it is the decimal rendering. -/
theorem leadingDigits_natToStr_block (n : Nat) (x : Char) (l₂ : List Char)
    (hx : x.isDigit = false) :
    leadingDigits ⟨(natToStr n).data ++ x :: l₂⟩ = natToStr n := by
  unfold leadingDigits
  apply congrArg String.mk
  show ((natToStr n).data ++ x :: l₂).takeWhile Char.isDigit = (natToStr n).data
  exact takeWhile_block _ _ _ _ (natToStr_isDigit n) hx

/-- The leading digits of the stem of `f'{n}_raw.txt'` are exactly the
decimal rendering of `n`. -/
theorem leadingDigits_stem_raw (n : Nat) :
    leadingDigits (pyStem (natToStr n ++ "_raw.txt")) = natToStr n := by
  rw [pyStem_raw]
  have : natToStr n ++ "_raw" = ⟨(natToStr n).data ++ '_' :: "raw".data⟩ := rfl
  rw [this]
  exact leadingDigits_natToStr_block n '_' _ (by decide)

/-- The leading digits of the stem of `f'{n}_meta.json'` are exactly the
decimal rendering of `n`. -/
theorem leadingDigits_stem_meta (n : Nat) :
    leadingDigits (pyStem (natToStr n ++ "_meta.json")) = natToStr n := by
  rw [pyStem_meta]
  have : natToStr n ++ "_meta" = ⟨(natToStr n).data ++ '_' :: "meta".data⟩ := rfl
  rw [this]
  exact leadingDigits_natToStr_block n '_' _ (by decide)

/-- The parsed index of the entry `f'{n}_raw.txt'` is `n`. -/
theorem entryIdx_raw (n sz : Nat) : entryIdx ⟨natToStr n ++ "_raw.txt", sz⟩ = n := by
  unfold entryIdx
  rw [show (⟨natToStr n ++ "_raw.txt", sz⟩ : FSEntry).name = natToStr n ++ "_raw.txt" from rfl,
    leadingDigits_stem_raw]
  exact digitsToNat_natToStr n

/-- The parsed index of the entry `f'{n}_meta.json'` is `n`. -/
theorem entryIdx_meta (n sz : Nat) : entryIdx ⟨natToStr n ++ "_meta.json", sz⟩ = n := by
  unfold entryIdx
  rw [show (⟨natToStr n ++ "_meta.json", sz⟩ : FSEntry).name = natToStr n ++ "_meta.json" from rfl,
    leadingDigits_stem_meta]
  exact digitsToNat_natToStr n

/-- Any error the entry-scan pass raises is `InconsistentDatasetError`. -/
theorem collectIndices_err (es : List FSEntry) :
    ∀ acc e, collectIndices es acc = .error e → e = .inconsistentDataset := by
  induction es with
  | nil => intro acc e h; simp [collectIndices] at h
  | cons a t ih =>
    intro acc e h
    rw [collectIndices] at h
    split at h
    · injection h with h'; exact h'.symm
    · split at h
      · injection h with h'; exact h'.symm
      · exact ih _ e h

/-- A zero-size entry anywhere in the listing makes the entry-scan pass
fail with `InconsistentDatasetError`. -/
theorem collectIndices_zero_size (es : List FSEntry) :
    ∀ acc, (∃ e ∈ es, e.size = 0) → collectIndices es acc = .error .inconsistentDataset := by
  induction es with
  | nil => intro acc h; simp at h
  | cons a t ih =>
    intro acc h
    rw [collectIndices]
    by_cases ha : a.size = 0
    · rw [if_pos ha]
    · rw [if_neg ha]
      rcases h with ⟨e, he, hsz⟩
      rcases List.mem_cons.1 he with h1 | h1
      · exact absurd (h1 ▸ hsz) ha
      · split
        · rfl
        · exact ih _ ⟨e, h1, hsz⟩

/-- Success of the entry-scan pass: it succeeds exactly when every entry has
a positive size and a digit-initial stem, and then returns the accumulated
deduplicated index list. -/
theorem collectIndices_ok_iff (es : List FSEntry) :
    ∀ acc l, collectIndices es acc = .ok l ↔
      (∀ e ∈ es, e.size ≠ 0 ∧ leadingDigits (pyStem e.name) ≠ "") ∧
        l = dedupInto acc (es.map entryIdx) := by
  induction es with
  | nil =>
    intro acc l
    simp [collectIndices, dedupInto, eq_comm]
  | cons a t ih =>
    intro acc l
    rw [collectIndices]
    by_cases ha : a.size = 0
    · rw [if_pos ha]
      simp only [List.mem_cons]
      constructor
      · intro h; cases h
      · rintro ⟨h, -⟩
        exact absurd ha (h a (Or.inl rfl)).1
    · rw [if_neg ha]
      by_cases hd : leadingDigits (pyStem a.name) = ""
      · rw [if_pos hd]
        constructor
        · intro h; cases h
        · rintro ⟨h, -⟩
          exact absurd hd (h a (List.mem_cons_self a t)).2
      · rw [if_neg hd, ih]
        constructor
        · rintro ⟨h1, h2⟩
          refine ⟨fun e he => ?_, ?_⟩
          · rcases List.mem_cons.1 he with h | h
            · exact h ▸ ⟨ha, hd⟩
            · exact h1 e h
          · rw [h2, List.map_cons, dedupInto]
        · rintro ⟨h1, h2⟩
          refine ⟨fun e he => h1 e (List.mem_cons_of_mem a he), ?_⟩
          rw [h2, List.map_cons, dedupInto]

/-- Membership in the accumulated index list. -/
theorem dedupInto_mem (l : List Nat) :
    ∀ acc x, x ∈ dedupInto acc l ↔ x ∈ acc ∨ x ∈ l := by
  induction l with
  | nil => intro acc x; simp [dedupInto]
  | cons i t ih =>
    intro acc x
    rw [dedupInto, ih]
    by_cases hc : acc.contains i
    · rw [if_pos hc]
      have : i ∈ acc := List.elem_iff.1 hc
      simp only [List.mem_cons]
      constructor
      · rintro (h | h)
        · exact Or.inl h
        · exact Or.inr (Or.inr h)
      · rintro (h | h | h)
        · exact Or.inl h
        · exact Or.inl (h ▸ this)
        · exact Or.inr h
    · rw [if_neg hc]
      simp only [List.mem_append, List.mem_singleton, List.mem_cons]
      tauto

/-- The accumulated index list stays duplicate-free. -/
theorem dedupInto_nodup (l : List Nat) :
    ∀ acc, acc.Nodup → (dedupInto acc l).Nodup := by
  induction l with
  | nil => intro acc h; exact h
  | cons i t ih =>
    intro acc h
    rw [dedupInto]
    by_cases hc : acc.contains i
    · rw [if_pos hc]; exact ih acc h
    · rw [if_neg hc]
      refine ih _ (List.nodup_append.2 ⟨h, List.nodup_singleton i, ?_⟩)
      intro x hx hmem
      rw [List.mem_singleton] at hmem
      subst hmem
      exact hc (List.elem_iff.2 hx)

/-- The accumulated list is empty only when both inputs are. -/
theorem dedupInto_eq_nil (l : List Nat) :
    ∀ acc, dedupInto acc l = [] → acc = [] ∧ l = [] := by
  induction l with
  | nil => intro acc h; exact ⟨h, rfl⟩
  | cons i t ih =>
    intro acc h
    rw [dedupInto] at h
    rcases ih _ h with ⟨h1, -⟩
    by_cases hc : acc.contains i
    · rw [if_pos hc] at h1
      subst h1
      simp [List.contains] at hc
    · rw [if_neg hc] at h1
      simp at h1

/-- Any error the second pass raises is `InconsistentDatasetError`. -/
theorem checkIndices_err (es : List FSEntry) (l : List Nat) :
    ∀ prev e, checkIndices es prev l = .error e → e = .inconsistentDataset := by
  induction l with
  | nil => intro prev e h; simp [checkIndices] at h
  | cons i t ih =>
    intro prev e h
    rw [checkIndices] at h
    split at h
    · injection h with h'; exact h'.symm
    · split at h
      · injection h with h'; exact h'.symm
      · exact ih i e h

/-- The second pass succeeds on a list that counts up by one from
`prev + 1` and whose raw/meta files all exist. -/
theorem checkIndices_ok_of (es : List FSEntry) :
    ∀ (l : List Nat) (prev : Nat), l = List.range' (prev + 1) l.length →
      (∀ i ∈ l, hasFile es (natToStr i ++ "_raw.txt") = true ∧
        hasFile es (natToStr i ++ "_meta.json") = true) →
      checkIndices es prev l = .ok () := by
  intro l
  induction l with
  | nil => intro prev _ _; rfl
  | cons i t ih =>
    intro prev hchain hfiles
    rw [List.length_cons, List.range'_succ] at hchain
    injection hchain with hi ht
    rw [checkIndices]
    rw [if_neg (by omega)]
    rcases hfiles i (List.mem_cons_self i t) with ⟨hr, hm⟩
    rw [hr, hm]
    simp only [Bool.not_true, Bool.false_or, Bool.or_self]
    rw [if_neg (by simp)]
    exact ih i (by rw [hi]; exact ht) (fun j hj => hfiles j (List.mem_cons_of_mem i hj))

/-- What success of the second pass guarantees: the list counts up by one
from `prev + 1`, and every listed identifier has its raw and meta files. -/
theorem checkIndices_ok_then (es : List FSEntry) :
    ∀ (l : List Nat) (prev : Nat), checkIndices es prev l = .ok () →
      l = List.range' (prev + 1) l.length ∧
      ∀ i ∈ l, hasFile es (natToStr i ++ "_raw.txt") = true ∧
        hasFile es (natToStr i ++ "_meta.json") = true := by
  intro l
  induction l with
  | nil => intro prev _; exact ⟨rfl, by simp⟩
  | cons i t ih =>
    intro prev h
    rw [checkIndices] at h
    split at h
    · cases h
    · rename_i hdiff
      split at h
      · cases h
      · rename_i hfiles
        rcases ih i h with ⟨hchain, hrest⟩
        have hi : i = prev + 1 := by omega
        have hfr : hasFile es (natToStr i ++ "_raw.txt") = true ∧
            hasFile es (natToStr i ++ "_meta.json") = true := by
          cases hr : hasFile es (natToStr i ++ "_raw.txt") with
          | false => exact absurd (by simp [hr]) hfiles
          | true =>
            cases hm : hasFile es (natToStr i ++ "_meta.json") with
            | false => exact absurd (by simp [hr, hm]) hfiles
            | true => exact ⟨rfl, rfl⟩
        constructor
        · rw [List.length_cons, List.range'_succ, ← hi, ← hchain]
        · intro j hj
          rcases List.mem_cons.1 hj with h1 | h1
          · exact h1 ▸ hfr
          · exact hrest j h1

/-- Membership in a step-one range. -/
theorem mem_range_one {a n m : Nat} : m ∈ List.range' a n ↔ a ≤ m ∧ m < a + n := by
  rw [List.mem_range']
  constructor
  · rintro ⟨i, hi, rfl⟩
    omega
  · intro h
    exact ⟨m - a, by omega, by omega⟩

/-- A step-one range is sorted by `≤`. -/
theorem sorted_le_range (a n : Nat) : List.Sorted (· ≤ ·) (List.range' a n) := by
  induction n generalizing a with
  | zero => exact List.sorted_nil
  | succ k ih =>
    rw [List.range'_succ, List.sorted_cons]
    refine ⟨fun b hb => ?_, ih (a + 1)⟩
    rcases mem_range_one.1 hb with ⟨h1, -⟩
    omega

/-- Sorting any duplicate-free list whose members are exactly `1..N`
yields the list `[1, 2, …, N]`. -/
theorem insertionSort_eq_range (l : List Nat) (N : Nat) (hnd : l.Nodup)
    (hmem : ∀ x, x ∈ l ↔ 1 ≤ x ∧ x ≤ N) :
    List.insertionSort (· ≤ ·) l = List.range' 1 N := by
  apply List.eq_of_perm_of_sorted (r := (· ≤ ·))
  · refine (List.perm_insertionSort _ l).trans ?_
    rw [List.perm_ext_iff_of_nodup hnd (List.nodup_range' 1 N)]
    intro x
    rw [hmem x, mem_range_one]
    omega
  · exact List.sorted_insertionSort _ l
  · exact sorted_le_range 1 N

/-- `validate_dataset` on an existing directory, unfolded to its passes. -/
theorem validate_dir_eq (es : List FSEntry) :
    validate_dataset ⟨true, true, es⟩ =
      match collectIndices es [] with
      | .error e => .error e
      | .ok indices =>
        if indices = [] then .error .emptyDirectory
        else if (List.insertionSort (· ≤ ·) indices).head? ≠ some 1 then
          .error .inconsistentDataset
        else checkIndices es 0 (List.insertionSort (· ≤ ·) indices) := rfl

/-- Everything a successful validation guarantees about the directory: all
entries are non-empty with digit-initial stems, the distinct parsed indices
are exactly `1..N` for some `N ≥ 1`, and every identifier in range has its
raw and meta files. -/
theorem validate_ok_spec (es : List FSEntry)
    (h : validate_dataset ⟨true, true, es⟩ = .ok ()) :
    (∀ e ∈ es, e.size ≠ 0 ∧ leadingDigits (pyStem e.name) ≠ "") ∧
    ∃ N, 1 ≤ N ∧ (∀ x, x ∈ indexSet es ↔ 1 ≤ x ∧ x ≤ N) ∧
      ∀ i, 1 ≤ i → i ≤ N →
        hasFile es (natToStr i ++ "_raw.txt") = true ∧
        hasFile es (natToStr i ++ "_meta.json") = true := by
  rw [validate_dir_eq] at h
  cases hc : collectIndices es [] with
  | error e => rw [hc] at h; cases h
  | ok l =>
    rw [hc] at h
    dsimp only at h
    rcases (collectIndices_ok_iff es [] l).1 hc with ⟨hent, hl⟩
    by_cases hnil : l = []
    · rw [if_pos hnil] at h; cases h
    · rw [if_neg hnil] at h
      by_cases hhead : (List.insertionSort (· ≤ ·) l).head? ≠ some 1
      · rw [if_pos hhead] at h; cases h
      · rw [if_neg hhead] at h
        rcases checkIndices_ok_then es (List.insertionSort (· ≤ ·) l) 0 h with ⟨hchain, hfiles⟩
        have hperm : (List.insertionSort (· ≤ ·) l).Perm l := List.perm_insertionSort _ l
        have hsne : List.insertionSort (· ≤ ·) l ≠ [] := by
          intro h0
          rw [h0] at hperm
          exact hnil (hperm.symm.eq_nil)
        refine ⟨hent, (List.insertionSort (· ≤ ·) l).length, ?_, ?_, ?_⟩
        · have := List.length_pos.2 hsne
          omega
        · intro x
          have hfilter : es.filter (fun e => leadingDigits (pyStem e.name) ≠ "") = es :=
            List.filter_eq_self.2 (fun a ha => by simpa using (hent a ha).2)
          unfold indexSet
          rw [hfilter, List.mem_toFinset]
          have hmem : x ∈ es.map entryIdx ↔ x ∈ l := by
            rw [hl, dedupInto_mem]
            simp
          rw [hmem, ← hperm.mem_iff]
          rw [hchain]
          rw [mem_range_one, List.length_range']
          omega
        · intro i h1 hN
          apply hfiles
          rw [hchain, mem_range_one]
          omega

/-- On an existing, non-empty directory, every failure of `validate_dataset`
is an `InconsistentDatasetError`. -/
theorem validate_dir_err (es : List FSEntry) (hne : es ≠ []) (e : VErr)
    (h : validate_dataset ⟨true, true, es⟩ = .error e) : e = .inconsistentDataset := by
  rw [validate_dir_eq] at h
  cases hc : collectIndices es [] with
  | error err =>
    rw [hc] at h
    injection h with h'
    rw [← h']
    exact collectIndices_err es [] err hc
  | ok l =>
    rw [hc] at h
    dsimp only at h
    rcases (collectIndices_ok_iff es [] l).1 hc with ⟨-, hl⟩
    have hnil : l ≠ [] := by
      intro h0
      rcases dedupInto_eq_nil _ [] (hl.symm.trans h0) with ⟨-, hmap⟩
      have : es = [] := by
        cases es with
        | nil => rfl
        | cons a t => simp at hmap
      exact hne this
    rw [if_neg hnil] at h
    by_cases hh : (List.insertionSort (· ≤ ·) l).head? ≠ some 1
    · rw [if_pos hh] at h
      injection h with h'
      exact h'.symm
    · rw [if_neg hh] at h
      exact checkIndices_err es _ 0 e h

/-- An entry named `f'{n}_raw.txt'` parses to index `n`. -/
theorem entryIdx_of_raw_name (e : FSEntry) (n : Nat)
    (h : e.name = natToStr n ++ "_raw.txt") : entryIdx e = n := by
  unfold entryIdx
  rw [h, leadingDigits_stem_raw, digitsToNat_natToStr]

/-- An entry named `f'{n}_meta.json'` parses to index `n`. -/
theorem entryIdx_of_meta_name (e : FSEntry) (n : Nat)
    (h : e.name = natToStr n ++ "_meta.json") : entryIdx e = n := by
  unfold entryIdx
  rw [h, leadingDigits_stem_meta, digitsToNat_natToStr]

/-- The stem of `f'{n}_raw.txt'` has a non-empty digit run. -/
theorem leadingDigits_stem_raw_ne (n : Nat) :
    leadingDigits (pyStem (natToStr n ++ "_raw.txt")) ≠ "" := by
  rw [leadingDigits_stem_raw]
  exact natToStr_ne_empty n

/-- The stem of `f'{n}_meta.json'` has a non-empty digit run. -/
theorem leadingDigits_stem_meta_ne (n : Nat) :
    leadingDigits (pyStem (natToStr n ++ "_meta.json")) ≠ "" := by
  rw [leadingDigits_stem_meta]
  exact natToStr_ne_empty n

/-- C1: for every directory whose entries are the files `{i}_raw.txt` and
`{i}_meta.json` for identifiers `i` forming exactly the contiguous range
`1..N` (with `N ≥ 1`), every file non-empty, `validate_dataset` returns
without raising any error. -/
theorem c1_validate_ok_on_complete_dataset (es : List FSEntry) (N : Nat) (hN : 1 ≤ N)
    (h1 : ∀ e ∈ es, e.size ≠ 0 ∧ ∃ i ∈ Finset.Icc 1 N,
      e.name = natToStr i ++ "_raw.txt" ∨ e.name = natToStr i ++ "_meta.json")
    (h2 : ∀ i ∈ Finset.Icc 1 N,
      hasFile es (natToStr i ++ "_raw.txt") = true ∧
      hasFile es (natToStr i ++ "_meta.json") = true) :
    validate_dataset ⟨true, true, es⟩ = .ok () := by
  have hent : ∀ e ∈ es, e.size ≠ 0 ∧ leadingDigits (pyStem e.name) ≠ "" := by
    intro e he
    rcases h1 e he with ⟨hsz, i, -, hname | hname⟩
    · exact ⟨hsz, by rw [hname]; exact leadingDigits_stem_raw_ne i⟩
    · exact ⟨hsz, by rw [hname]; exact leadingDigits_stem_meta_ne i⟩
  have hc : collectIndices es [] = .ok (dedupInto [] (es.map entryIdx)) :=
    (collectIndices_ok_iff es [] _).2 ⟨hent, rfl⟩
  have hmem : ∀ x, x ∈ dedupInto [] (es.map entryIdx) ↔ 1 ≤ x ∧ x ≤ N := by
    intro x
    rw [dedupInto_mem]
    simp only [List.not_mem_nil, false_or, List.mem_map]
    constructor
    · rintro ⟨e, he, rfl⟩
      rcases h1 e he with ⟨-, i, hi, hname | hname⟩
      · rw [entryIdx_of_raw_name e i hname]
        exact Finset.mem_Icc.1 hi
      · rw [entryIdx_of_meta_name e i hname]
        exact Finset.mem_Icc.1 hi
    · intro hx
      rcases h2 x (Finset.mem_Icc.2 hx) with ⟨hr, -⟩
      rcases List.any_eq_true.1 hr with ⟨e, he, hbeq⟩
      exact ⟨e, he, entryIdx_of_raw_name e x (by simpa using hbeq)⟩
  have hnd : (dedupInto [] (es.map entryIdx)).Nodup :=
    dedupInto_nodup _ [] List.nodup_nil
  have hsort : List.insertionSort (· ≤ ·) (dedupInto [] (es.map entryIdx)) =
      List.range' 1 N :=
    insertionSort_eq_range _ N hnd hmem
  have hne : dedupInto [] (es.map entryIdx) ≠ [] := by
    intro h0
    have := (hmem 1).2 ⟨le_refl 1, hN⟩
    rw [h0] at this
    cases this
  have hrange : List.range' 1 N = 1 :: List.range' 2 (N - 1) := by
    cases N with
    | zero => omega
    | succ k => rw [List.range'_succ]; norm_num
  rw [validate_dir_eq, hc]
  dsimp only
  rw [if_neg hne, hsort]
  rw [if_neg (by rw [hrange]; simp)]
  apply checkIndices_ok_of
  · rw [List.length_range']
  · intro i hi
    rw [mem_range_one] at hi
    exact h2 i (Finset.mem_Icc.2 ⟨hi.1, by omega⟩)

/-- Witness for C1: a concrete directory holding exactly the four files of
identifiers 1 and 2, all non-empty, validates successfully. -/
theorem c1_witness :
    validate_dataset ⟨true, true,
      [⟨"1_raw.txt", 1⟩, ⟨"1_meta.json", 1⟩, ⟨"2_raw.txt", 3⟩, ⟨"2_meta.json", 2⟩]⟩ = .ok () :=
  c1_validate_ok_on_complete_dataset _ 2 (by decide) (by decide) (by decide)

/-- C2: for every existing directory whose set of distinct leading integers
has minimum different from 1 or has a gap (some `k` with `1 ≤ k < max`
absent), `validate_dataset` fails with `InconsistentDatasetError`. -/
theorem c2_validate_inconsistent_on_bad_numbering (es : List FSEntry)
    (hS : (indexSet es).Nonempty)
    (h : (indexSet es).min' hS ≠ 1 ∨
      ∃ k, 1 ≤ k ∧ k < (indexSet es).max' hS ∧ k ∉ indexSet es) :
    validate_dataset ⟨true, true, es⟩ = .error .inconsistentDataset := by
  have hne : es ≠ [] := by
    intro h0
    subst h0
    rcases hS with ⟨x, hx⟩
    simp [indexSet] at hx
  cases hv : validate_dataset ⟨true, true, es⟩ with
  | ok u =>
    cases u
    rcases validate_ok_spec es hv with ⟨-, N, hN, hmem, -⟩
    have h1S : 1 ∈ indexSet es := (hmem 1).2 ⟨le_refl 1, hN⟩
    rcases h with hmin | ⟨k, hk1, hkmax, hknot⟩
    · have hle : (indexSet es).min' hS ≤ 1 := Finset.min'_le _ 1 h1S
      have hge : 1 ≤ (indexSet es).min' hS :=
        ((hmem _).1 (Finset.min'_mem _ hS)).1
      omega
    · have hmax : (indexSet es).max' hS ∈ indexSet es := Finset.max'_mem _ hS
      have hmaxN : (indexSet es).max' hS ≤ N := ((hmem _).1 hmax).2
      exact absurd ((hmem k).2 ⟨hk1, by omega⟩) hknot
  | error e =>
    rw [validate_dir_err es hne e hv]

/-- Witness for C2: a concrete directory whose only identifier is 2 (so its
minimum is not 1) is rejected as inconsistent. -/
theorem c2_witness :
    validate_dataset ⟨true, true, [⟨"2_raw.txt", 1⟩, ⟨"2_meta.json", 1⟩]⟩ =
      .error .inconsistentDataset :=
  c2_validate_inconsistent_on_bad_numbering _ (by decide) (Or.inl (by decide))

/-- C7 counterexample: a non-empty existing directory none of whose entries
yields a leading integer.  The claim says `validate_dataset` fails with
`EmptyDirectoryError` there; in fact it fails with
`InconsistentDatasetError` (the first entry with a non-digit-initial stem
raises before the emptiness check is ever reached). -/
theorem c7_counterexample :
    leadingDigits (pyStem "notes.txt") = "" ∧
    validate_dataset ⟨true, true, [⟨"notes.txt", 5⟩]⟩ = .error .inconsistentDataset ∧
    validate_dataset ⟨true, true, [⟨"notes.txt", 5⟩]⟩ ≠ .error .emptyDirectory := by
  refine ⟨by decide, by decide, by decide⟩

/-- C7 amended: `EmptyDirectoryError` is raised exactly for an existing
directory with no entries at all; an existing directory whose entries merely
yield no leading integer raises `InconsistentDatasetError` instead. -/
theorem c7_empty_directory :
    validate_dataset ⟨true, true, []⟩ = .error .emptyDirectory := by
  decide

/-- C8: for every path that does not exist, `validate_dataset` fails with
the path-not-found error (`FileNotFoundError`), and for every path that
exists but is not a directory it fails with `NotADirectoryError` — in both
cases whatever the directory entries are, i.e. before inspecting any
entry. -/
theorem c8_path_checks_first :
    ∀ (d : Bool) (es : List FSEntry),
      validate_dataset ⟨false, d, es⟩ = .error .fileNotFound ∧
      validate_dataset ⟨true, false, es⟩ = .error .notADirectory := by
  intro d es
  exact ⟨rfl, rfl⟩

/-- C9: for every existing directory containing a zero-length raw-text file
at any identifier, `validate_dataset` fails with
`InconsistentDatasetError`. -/
theorem c9_empty_raw_file_inconsistent (es : List FSEntry) (i : Nat)
    (h : ∃ e ∈ es, e.name = natToStr i ++ "_raw.txt" ∧ e.size = 0) :
    validate_dataset ⟨true, true, es⟩ = .error .inconsistentDataset := by
  rw [validate_dir_eq,
    collectIndices_zero_size es [] (by rcases h with ⟨e, he, -, hsz⟩; exact ⟨e, he, hsz⟩)]

/-- Witness for C9: a concrete directory whose raw file `1_raw.txt` is
zero-length is rejected as inconsistent. -/
theorem c9_witness :
    validate_dataset ⟨true, true, [⟨"1_raw.txt", 0⟩, ⟨"1_meta.json", 4⟩]⟩ =
      .error .inconsistentDataset :=
  c9_empty_raw_file_inconsistent _ 1
    ⟨⟨"1_raw.txt", 0⟩, by simp, by decide, rfl⟩

/-- C10: `validate_dataset` raises `InconsistentDatasetError` whenever any
entry of the existing directory is zero-length — metadata and auxiliary
files included, with no condition at all on the entry's name, since the
size check precedes the filename parse. -/
theorem c10_any_empty_file_inconsistent (es : List FSEntry)
    (h : ∃ e ∈ es, e.size = 0) :
    validate_dataset ⟨true, true, es⟩ = .error .inconsistentDataset := by
  rw [validate_dir_eq, collectIndices_zero_size es [] h]

/-- Witness for C10: a directory whose zero-length entry is an auxiliary
file with no leading digit is still rejected as inconsistent. -/
theorem c10_witness :
    validate_dataset ⟨true, true,
      [⟨"1_raw.txt", 7⟩, ⟨"1_meta.json", 4⟩, ⟨"readme", 0⟩]⟩ =
      .error .inconsistentDataset :=
  c10_any_empty_file_inconsistent _ ⟨⟨"readme", 0⟩, by simp, rfl⟩

/-- C3: for well-formed lemma-tagger output (per the collaborator interface,
every analysis candidate carries both a lemma and a grammar tag), the
annotator emits a `MorphologicalToken` for an analyze-result item if and
only if the item has a non-empty surface text, at least one analysis
candidate, and the morphology tagger returns at least one parse candidate
for the surface text.  A failing item yields `none` — no record and, the
function being total, no error. -/
theorem c3_emission_iff (analyze : String → List MystemItem) (parse : String → List String)
    (raw : String) (t : MystemItem) (ht : t ∈ analyze (stripNewlines raw))
    (hwf : ∀ cs, t.analysis = some cs → ∀ c ∈ cs, c.lex ≠ none ∧ c.gr ≠ none) :
    (processItem parse t).isSome = true ↔
      ∃ s, t.text = some s ∧ s ≠ "" ∧ t.analysis ≠ none ∧ t.analysis ≠ some [] ∧
        parse s ≠ [] := by
  rcases t with ⟨txt, ana⟩
  cases ana with
  | none => simp [processItem]
  | some cs =>
    cases cs with
    | nil => simp [processItem]
    | cons c rest =>
      rcases hwf (c :: rest) rfl c (List.mem_cons_self c rest) with ⟨hlex, hgr⟩
      rcases hl : c.lex with _ | lex
      · exact absurd hl hlex
      rcases hg : c.gr with _ | gr
      · exact absurd hg hgr
      cases txt with
      | none => simp [processItem, hl, hg]
      | some s =>
        by_cases hs : s = ""
        · subst hs
          simp [processItem, hl, hg]
        · cases hp : parse s with
          | nil => simp [processItem, hl, hg, hs, hp]
          | cons p ps => simp [processItem, hl, hg, hs, hp]

/-- Witness for C3: a concrete well-formed item with non-empty text, one
candidate and one parse is emitted. -/
theorem c3_witness :
    (processItem sampleParse
      { text := some "Кот", analysis := some [{ lex := some "Кот", gr := some "S" }] }).isSome = true :=
  (c3_emission_iff sampleAnalyze sampleParse "Кот"
    { text := some "Кот", analysis := some [{ lex := some "Кот", gr := some "S" }] }
    (by decide)
    (by
      rintro cs hcs c hc
      injection hcs with h
      subst h
      rcases List.mem_singleton.1 hc with rfl
      exact ⟨by decide, by decide⟩)).mpr
    ⟨"Кот", rfl, by decide, by decide, by decide, by decide⟩

/-- C4: the three derived views of a `MorphologicalToken` with original
word `w`, lemma `l`, lemma tag `t` and morphology tag `m` are exactly
`lowercase w`, `l<t>` and `l<t>(m)`, checked in general and on the spec's
concrete Russian example. -/
theorem c4_projection_views :
    (∀ w l t m : String,
      (MorphologicalToken.mk w l t m).get_cleaned = pyLower w ∧
      (MorphologicalToken.mk w l t m).get_single_tagged = l ++ "<" ++ t ++ ">" ∧
      (MorphologicalToken.mk w l t m).get_multiple_tagged = l ++ "<" ++ t ++ ">(" ++ m ++ ")") ∧
    (MorphologicalToken.mk "Пример" "пример" "S,имя,муж,неод=(им,ед)"
      "NOUN,anim,masc sing,nomn").get_cleaned = "пример" ∧
    (MorphologicalToken.mk "Пример" "пример" "S,имя,муж,неод=(им,ед)"
      "NOUN,anim,masc sing,nomn").get_single_tagged = "пример<S,имя,муж,неод=(им,ед)>" ∧
    (MorphologicalToken.mk "Пример" "пример" "S,имя,муж,неод=(им,ед)"
      "NOUN,anim,masc sing,nomn").get_multiple_tagged =
      "пример<S,имя,муж,неод=(им,ед)>(NOUN,anim,masc sing,nomn)" := by
  refine ⟨fun w l t m => ⟨rfl, rfl, rfl⟩, by decide, by decide, by decide⟩

/-- The pipeline writes exactly one output record per article. -/
theorem runPipeline_length (analyze : String → List MystemItem)
    (parse : String → List String) (arts : List ArticleRec) :
    (runPipeline analyze parse arts).length = arts.length := by
  induction arts with
  | nil => rfl
  | cons a t ih => simp [runPipeline, ih]

/-- C5: the `k`-th persisted output of a pipeline run is built from the
`k`-th article's own raw text only — its three views are the space-joined
projections of `_process` of that raw text, with no dependence on any
earlier article (the three accumulator lists start fresh each
iteration). -/
theorem c5_article_isolation (analyze : String → List MystemItem)
    (parse : String → List String) (arts : List ArticleRec) (k : Nat)
    (hk : k < arts.length) :
    (runPipeline analyze parse arts).get
        ⟨k, by rw [runPipeline_length]; exact hk⟩ =
      { id := (arts.get ⟨k, hk⟩).id,
        cleaned := String.intercalate " "
          ((process analyze parse (arts.get ⟨k, hk⟩).raw_text).map
            MorphologicalToken.get_cleaned),
        single_tagged := String.intercalate " "
          ((process analyze parse (arts.get ⟨k, hk⟩).raw_text).map
            MorphologicalToken.get_single_tagged),
        multiple_tagged := String.intercalate " "
          ((process analyze parse (arts.get ⟨k, hk⟩).raw_text).map
            MorphologicalToken.get_multiple_tagged) } := by
  induction arts generalizing k with
  | nil => exact absurd hk (by simp)
  | cons a t ih =>
    cases k with
    | zero => rfl
    | succ k' =>
      have hk' : k' < t.length := by simpa using hk
      exact ih k' hk'

/-- Witness for C5: in a concrete two-article run, the second output record
is exactly the second article's own projections. -/
theorem c5_witness :
    (runPipeline sampleAnalyze sampleParse sampleArticles).get ⟨1, by decide⟩ =
      { id := 2, cleaned := "дом", single_tagged := "Дом<S>",
        multiple_tagged := "Дом<S>(NOUN)" } :=
  (c5_article_isolation sampleAnalyze sampleParse sampleArticles 1 (by decide)).trans
    (by decide)

/-- C6 (code bug): `_scan_dataset` does not skip an entry whose name lacks a
leading digit — `digit.match(file.name)` is `None` there and `.group()`
raises `AttributeError` (the skip guard `if not article_id: continue` is
dead code, as a successful `\d+` group is never empty).  Evaluating the
scanner on a directory holding an auxiliary file shows the crash. -/
theorem c6_scan_crashes_on_nondigit_entry :
    scanDataset ["1_raw.txt", "notes.txt"] = .error .attributeError := by
  decide
